import Mathlib

set_option maxHeartbeats 1000000

/-!
Verification development for the query-resolution engine of the snap
repository (`src/bluepysnap/query.py`).  The Python module resolves nested
boolean query trees against a tabular data set (a pandas `DataFrame` whose
integer index identifies the rows) into a per-row boolean mask.  This file
shallowly embeds the data model and every operation of that module:

* `Snap.Mask`            -- the scalar/vector mask values (`bool` or `ndarray`);
* `Snap.logicalAnd/Or`   -- `_logical_and` / `_logical_or`;
* `Snap.Regex`, `pmatch` -- a model of Python regular expressions as used by
                            `pandas.Series.str.match` (match anchored at the
                            start) together with the textual `+ r"\Z"` suffix
                            appended by `_complex_query`;
* `Snap.positionalMask`, `circuitMask`, `propertiesMask`, `complexQuery`
                         -- the leaf-level mask computations;
* `Snap.resolveCollect`, `resolveIds`
                         -- `traverse_queries_bottom_up` specialised to the
                            `_collect` visitor of `resolve_ids`, and
                            `resolve_ids` itself.

Machine floats are modelled as rationals (`Rat`); no claim below depends on
rounding behaviour.  Python runtime errors are explicit: `BluepySnapError`
raise sites keep their identity (`Err.unknownModifier`, `Err.mixedOperators`)
while other runtime exceptions (TypeError/ValueError from tuple unpacking or
ill-typed comparisons, KeyError from a missing column) are collapsed into
`Err.typeErr` / `Err.keyErr`, which is all the claims distinguish.
-/

namespace Snap

/-! ### Regular expressions

`_complex_query` evaluates `prop.str.match(value + r"\Z")`: the pattern
string is extended with the end-of-string anchor `\Z` and matched with
`re.match` semantics (anchored at the start, free at the end).  We model the
pattern after parsing: `Regex` is the abstract syntax of a core of Python
regexes (characters, `.`, grouping, concatenation, alternation, `*`, and the
`\Z` anchor).  Matching is defined with Brzozowski derivatives; the
end-of-string anchor needs two nullability notions, one for positions in the
middle of the subject string and one for its very end. -/

inductive Regex where
  | fail
  | eps
  | chr (c : Char)
  | dot
  | endA
  | grp (r : Regex)
  | cat (r1 r2 : Regex)
  | alt (r1 r2 : Regex)
  | star (r : Regex)
deriving DecidableEq, Repr

/-- Does the regex match the empty string at a position strictly before the
end of the subject?  (`\Z` does not.) -/
def nullMid : Regex → Bool
  | .fail => false
  | .eps => true
  | .chr _ => false
  | .dot => false
  | .endA => false
  | .grp r => nullMid r
  | .cat r1 r2 => nullMid r1 && nullMid r2
  | .alt r1 r2 => nullMid r1 || nullMid r2
  | .star _ => true

/-- Does the regex match the empty string at the end of the subject?
(`\Z` does.) -/
def nullEnd : Regex → Bool
  | .fail => false
  | .eps => true
  | .chr _ => false
  | .dot => false
  | .endA => true
  | .grp r => nullEnd r
  | .cat r1 r2 => nullEnd r1 && nullEnd r2
  | .alt r1 r2 => nullEnd r1 || nullEnd r2
  | .star _ => true

/-- Brzozowski derivative: the residual regex after consuming one character
that is not the last resort of the string end (so `\Z` derives to failure,
and the nullability used when stepping over a `cat` is the mid-string one,
because a character is still available). -/
def derivC : Regex → Char → Regex
  | .fail, _ => .fail
  | .eps, _ => .fail
  | .chr a, c => if a = c then .eps else .fail
  | .dot, c => if c = '\n' then .fail else .eps
  | .endA, _ => .fail
  | .grp r, c => derivC r c
  | .cat r1 r2, c => .alt (.cat (derivC r1 c) r2) (if nullMid r1 then derivC r2 c else .fail)
  | .alt r1 r2, c => .alt (derivC r1 c) (derivC r2 c)
  | .star r, c => .cat (derivC r c) (.star r)

/-- `re.match` semantics: does the regex match some prefix of the subject?
A match may stop at any position; a stop strictly before the end uses
`nullMid`, a stop at the end uses `nullEnd`. -/
def pmatch : Regex → List Char → Bool
  | r, [] => nullEnd r
  | r, c :: s => nullMid r || pmatch (derivC r c) s

/-- Full match: the regex consumes the entire subject (this is the spec's
"anchored at both the start and the end" semantics). -/
def dmatch : Regex → List Char → Bool
  | r, [] => nullEnd r
  | r, c :: s => dmatch (derivC r c) s

/-- Textually appending `r"\Z"` to a pattern string and re-parsing it:
alternation has the lowest precedence in Python regexes, so the appended
anchor attaches to the last top-level alternative; otherwise it concatenates
at the end of the pattern.  (A parenthesised alternation is a `grp` and gets
the anchor outside the group, as the textual parse does.) -/
def appendZ : Regex → Regex
  | .alt r1 r2 => .alt r1 (appendZ r2)
  | r => .cat r .endA

/-- `prop.str.match(value + r"\Z")` applied to one string cell. -/
def pyStrMatchZ (r : Regex) (s : String) : Bool :=
  pmatch (appendZ r) s.data

/-- Is the regex a top-level alternation (the one shape on which the textual
`\Z` suffix fails to anchor every alternative)? -/
def Regex.isTopAlt : Regex → Bool
  | .alt _ _ => true
  | _ => false

theorem pmatch_fail (s : List Char) : pmatch .fail s = false := by
  induction s with
  | nil => rfl
  | cons c s ih => simpa [pmatch, nullMid, derivC] using ih

theorem pmatch_alt (s : List Char) :
    ∀ r1 r2 : Regex, pmatch (.alt r1 r2) s = (pmatch r1 s || pmatch r2 s) := by
  induction s with
  | nil => intro r1 r2; rfl
  | cons c s ih =>
      intro r1 r2
      simp only [pmatch, nullMid, derivC, ih]
      cases nullMid r1 <;> cases nullMid r2 <;>
        cases pmatch (derivC r1 c) s <;> cases pmatch (derivC r2 c) s <;> rfl

/-- Key regex lemma: matching `pattern` followed by a final `\Z` anchor with
`re.match` (prefix) semantics is the same as matching `pattern` against the
entire subject. -/
theorem pmatch_cat_endA (s : List Char) :
    ∀ r : Regex, pmatch (.cat r .endA) s = dmatch r s := by
  induction s with
  | nil =>
      intro r
      simp [pmatch, dmatch, nullEnd]
  | cons c s ih =>
      intro r
      simp only [pmatch, dmatch, nullMid, derivC, ite_self, Bool.and_false, Bool.false_or,
        pmatch_alt, pmatch_fail, Bool.or_false]
      exact ih (derivC r c)

/-- On every pattern that is not a top-level alternation, the textual `\Z`
suffix concatenates at the end of the pattern. -/
theorem appendZ_of_not_topAlt (r : Regex) (h : r.isTopAlt = false) :
    appendZ r = .cat r .endA := by
  cases r <;> first | rfl | simp [Regex.isTopAlt] at h

/-! ### Cell values and columns

A pandas column holds typed values.  We model the cell types that the query
module distinguishes: `np.issubdtype(prop.dtype.type, np.floating)` branches
on the column dtype, and the elementwise comparisons `==`, `isin`, `>=`/`<=`
follow Python semantics (numbers of different kinds compare by value, `True`
counts as `1`, strings compare only with strings). -/

inductive CellVal where
  | int (i : Int)
  | flt (q : Rat)
  | str (s : String)
  | bool (b : Bool)
deriving DecidableEq, Repr

inductive DType where
  | dInt
  | dFloat
  | dStr
  | dBool
deriving DecidableEq, Repr

/-- Numeric view of a Python value (Python treats `bool` as a number). -/
def CellVal.toRat? : CellVal → Option Rat
  | .int i => some (i : Rat)
  | .flt q => some q
  | .bool b => some (if b then 1 else 0)
  | .str _ => none

/-- Python `==` between two plain values: numeric kinds compare by value,
strings compare with strings, everything else is unequal. -/
def cellEq (a b : CellVal) : Bool :=
  match a.toRat?, b.toRat? with
  | some x, some y => decide (x = y)
  | _, _ =>
      match a, b with
      | .str s, .str t => decide (s = t)
      | _, _ => false

def cellHasType : CellVal → DType → Bool
  | .int _, .dInt => true
  | .flt _, .dFloat => true
  | .str _, .dStr => true
  | .bool _, .dBool => true
  | _, _ => false

structure Column where
  dtype : DType
  cells : List CellVal
deriving DecidableEq, Repr

/-- The table (`pd.DataFrame`): an integer index (the entity IDs, one per
row) and named, typed columns. -/
structure Table where
  index : List Int
  cols : List (String × Column)
deriving DecidableEq, Repr

/-- `len(data)` -/
def Table.nrows (t : Table) : Nat := t.index.length

def Table.colNames (t : Table) : List String := t.cols.map Prod.fst

/-- `data[name]` (column lookup). -/
def Table.getCol (t : Table) (name : String) : Option Column :=
  (t.cols.find? (fun c => c.fst = name)).map Prod.snd

/-- Well-formedness of the embedding of a DataFrame: every column has one
cell per row and the cells fit the column dtype. -/
def Table.wf (t : Table) : Bool :=
  t.cols.all (fun c =>
    decide (c.snd.cells.length = t.index.length) &&
    c.snd.cells.all (fun x => cellHasType x c.snd.dtype))

/-! ### Masks and the mask algebra (`_logical_and` / `_logical_or`)

A mask is either a Python `bool` scalar (universal-true / universal-false)
or a dense numpy boolean vector aligned with the table rows. -/

inductive Mask where
  | bool (b : Bool)
  | vec (v : List Bool)
deriving DecidableEq, Repr

def andVec (a b : List Bool) : List Bool := a.zipWith (fun x y => x && y) b

def orVec (a b : List Bool) : List Bool := a.zipWith (fun x y => x || y) b

/-- The filtering loop of `_logical_and`: drop `True` scalars, short-circuit
to `none` on the first `False` scalar, keep the vectors in order. -/
def filterAndMasks : List Mask → Option (List (List Bool))
  | [] => some []
  | .bool false :: _ => none
  | .bool true :: rest => filterAndMasks rest
  | .vec v :: rest => (filterAndMasks rest).map (fun vs => v :: vs)

/-- `_logical_and(masks)`: `True` on an empty (filtered) list, `False` as
soon as any scalar `False` is seen, otherwise the left fold of elementwise
`&` over the remaining vectors. -/
def logicalAnd (masks : List Mask) : Mask :=
  match filterAndMasks masks with
  | none => .bool false
  | some [] => .bool true
  | some (v :: vs) => .vec (vs.foldl andVec v)

/-- The filtering loop of `_logical_or`: drop `False` scalars, short-circuit
to `none` on the first `True` scalar, keep the vectors in order. -/
def filterOrMasks : List Mask → Option (List (List Bool))
  | [] => some []
  | .bool true :: _ => none
  | .bool false :: rest => filterOrMasks rest
  | .vec v :: rest => (filterOrMasks rest).map (fun vs => v :: vs)

/-- `_logical_or(masks)`. -/
def logicalOr (masks : List Mask) : Mask :=
  match filterOrMasks masks with
  | none => .bool true
  | some [] => .bool false
  | some (v :: vs) => .vec (vs.foldl orVec v)

/-- The test on line 117 of `query.py`:
`mask is False or isinstance(mask, np.ndarray) and not mask.any()`. -/
def maskIsFalse : Mask → Bool
  | .bool b => !b
  | .vec v => !(v.any id)

/-! ### Runtime errors

`BluepySnapError` raise sites keep their identity; other Python runtime
exceptions are collapsed by kind. -/

inductive Err where
  /-- `BluepySnapError(f"Unknown query modifier: '{key}'")` from `_complex_query`. -/
  | unknownModifier (k : String)
  /-- `BluepySnapError("Value operators can't be used with plain values")`
  from `traverse_queries_bottom_up`. -/
  | mixedOperators
  /-- TypeError / ValueError (tuple unpacking, ill-typed comparison, ...). -/
  | typeErr
  /-- KeyError (`data[prop]` for a reserved key that is not a column). -/
  | keyErr
deriving DecidableEq, Repr

/-- Is the error a `BluepySnapError` (the repository's `QueryError`)? -/
def Err.isQueryError : Err → Bool
  | .unknownModifier _ => true
  | .mixedOperators => true
  | _ => false

/-! ### Query trees

A query is a Python dict: an ordered mapping from string keys to values.  A
value can be a plain scalar, a list of scalars, a nested mapping, a list of
sub-queries (under `$and` / `$or`), or — inside a `$regex` leaf — a pattern
string, which we carry in parsed form (`Regex`).  During resolution
`_collect` rewrites values in place into masks, so masks are values too.
The dict spine is its own inductive (`QEntries`) so that all functions below
are plainly structurally recursive. -/

mutual
inductive QVal where
  | cell (v : CellVal)
  | vlist (vs : List CellVal)
  | rgx (r : Regex)
  | mask (m : Mask)
  | qmap (m : QEntries)
  | qlist (qs : QList)

inductive QEntries where
  | nil
  | cons (k : String) (v : QVal) (rest : QEntries)

inductive QList where
  | qnil
  | qcons (q : QEntries) (rest : QList)
end

def QEntries.keys : QEntries → List String
  | .nil => []
  | .cons k _ rest => k :: keys rest

/-- `queries[k]` for the first binding of `k` (Python dicts bind each key
once). -/
def QEntries.getKey? : String → QEntries → Option QVal
  | _, .nil => none
  | k, .cons k' v rest => if k' = k then some v else getKey? k rest

/-- `queries.pop(k, None)`: the removed value (if any) and the remaining
dict. -/
def QEntries.popKey : String → QEntries → Option QVal × QEntries
  | _, .nil => (none, .nil)
  | k, .cons k' v rest =>
      if k' = k then (some v, rest)
      else
        let p := popKey k rest
        (p.fst, .cons k' v p.snd)

/-- The reserved key constants of `query.py`. -/
def NODE_ID_KEY : String := "node_id"
def EDGE_ID_KEY : String := "edge_id"
def POPULATION_KEY : String := "population"
def OR_KEY : String := "$or"
def AND_KEY : String := "$and"
def REGEX_KEY : String := "$regex"
def NODE_SET_KEY : String := "$node_set"

def valueKeys : List String := [REGEX_KEY]

def allKeys : List String :=
  [NODE_ID_KEY, EDGE_ID_KEY, POPULATION_KEY, OR_KEY, AND_KEY, NODE_SET_KEY, REGEX_KEY]

/-! ### `_positional_mask` -/

/-- An element of the requested-IDs list as an index key:
`pd.Index.get_indexer` matches integers, integral floats and (as `0`/`1`)
booleans against an integer index; any other value is simply not found. -/
def CellVal.toIndexInt? : CellVal → Option Int
  | .int i => some i
  | .flt q => if q.den = 1 then some q.num else none
  | .bool b => some (if b then 1 else 0)
  | .str _ => none

/-- The list branch of `_positional_mask`: start from an all-`False` vector
sized to the row count, look every requested ID up in the index
(`get_indexer`; absent IDs yield `-1` and are dropped by the
`indices[indices > -1]` filter) and set the found positions `True`. -/
def posMaskIds (index : List Int) (vs : List CellVal) : Mask :=
  let found := vs.filterMap (fun c =>
    match c.toIndexInt? with
    | some i => index.findIdx? (fun x => decide (x = i))
    | none => none)
  .vec ((List.range index.length).map (fun p => found.contains p))

/-- `_positional_mask(data, ids)`:
`None` selects everything (scalar `True`), a scalar integer (Python counts
`bool` as `int`) is wrapped into a one-element list, a list is looked up
positionally.  Other scalar shapes are not list-like and make pandas raise
(collapsed into `typeErr`). -/
def positionalMask (index : List Int) (ids : Option QVal) : Except Err Mask :=
  match ids with
  | none => .ok (.bool true)
  | some (.cell (.int i)) => .ok (posMaskIds index [.int i])
  | some (.cell (.bool b)) => .ok (posMaskIds index [.bool b])
  | some (.vlist vs) => .ok (posMaskIds index vs)
  | some _ => .error .typeErr

/-! ### `_circuit_mask` -/

/-- `population_name in set(utils.ensure_list(populations))`.
`ensure_list` wraps scalars (strings included) into one-element lists and
turns other iterables into lists — iterating a dict yields its keys.  A list
of dicts cannot be hashed into a set and raises (collapsed into `typeErr`). -/
def popMatchesE (popName : String) (pv : QVal) : Except Err Bool :=
  match pv with
  | .cell (.str s) => .ok (decide (s = popName))
  | .cell _ => .ok false
  | .vlist vs => .ok (vs.any (fun c =>
      match c with
      | .str s => decide (s = popName)
      | _ => false))
  | .qmap m => .ok (m.keys.any (fun k => decide (k = popName)))
  | .qlist _ => .error .typeErr
  | .rgx _ => .ok false
  | .mask _ => .ok false

/-- `_circuit_mask(data, population_name, queries)`: pop the `population`
key; on a population mismatch the IDs are forced to the empty list (and the
ID keys are left in place); otherwise pop `edge_id` first (it is the
evaluated default argument) and then `node_id`, the latter winning when both
are present. -/
def circuitMask (index : List Int) (popName : String) (q : QEntries) :
    Except Err (QEntries × Mask) :=
  let pop1 := q.popKey POPULATION_KEY
  match pop1.fst with
  | some pv => do
      let inPops ← popMatchesE popName pv
      if inPops then
        let pop2 := pop1.snd.popKey EDGE_ID_KEY
        let pop3 := pop2.snd.popKey NODE_ID_KEY
        let ids := match pop3.fst with
          | some nv => some nv
          | none => pop2.fst
        let m ← positionalMask index ids
        .ok (pop3.snd, m)
      else do
        let m ← positionalMask index (some (.vlist []))
        .ok (pop1.snd, m)
  | none => do
      let pop2 := pop1.snd.popKey EDGE_ID_KEY
      let pop3 := pop2.snd.popKey NODE_ID_KEY
      let ids := match pop3.fst with
        | some nv => some nv
        | none => pop2.fst
      let m ← positionalMask index ids
      .ok (pop3.snd, m)

/-! ### `_complex_query` and the per-property dispatch of `_properties_mask` -/

/-- `prop.str.match(pattern + r"\Z")` over a whole column.  The `.str`
accessor requires a string column (otherwise pandas raises, collapsed into
`typeErr`); non-string cells inside a string column cannot arise in a
well-formed table and are mapped to `False`. -/
def strMatchMask (col : Column) (r : Regex) : Except Err Mask :=
  if col.dtype = DType.dStr then
    .ok (.vec (col.cells.map (fun c =>
      match c with
      | .str s => pyStrMatchZ r s
      | _ => false)))
  else .error .typeErr

/-- `_complex_query(prop, query)`: fold over the items of the mapping;
`$regex` AND-combines a full-string match into the accumulator (initially
`True`), any other key raises `Unknown query modifier`.  A `$regex` value
that is not a pattern string makes `value + r"\Z"` raise (`typeErr`). -/
def complexQuery (col : Column) : QEntries → Mask → Except Err Mask
  | .nil, result => .ok result
  | .cons k v rest, result =>
      if k = REGEX_KEY then
        match v with
        | .rgx r => do
            let sm ← strMatchMask col r
            complexQuery col rest (logicalAnd [result, sm])
        | _ => .error .typeErr
      else .error (.unknownModifier k)

/-- The value dispatch in the loop of `_properties_mask` for one property
column.  A floating column unpacks the value as a two-element range
(anything that does not unpack into two numeric bounds raises); otherwise a
mapping goes to `_complex_query`, a list to `isin` membership, and any other
plain value to elementwise equality.  A list of dicts hits `Series.isin`
with unhashable elements and raises. -/
def propMask (col : Column) (v : QVal) : Except Err Mask :=
  if col.dtype = DType.dFloat then
    match v with
    | .vlist [a, b] =>
        match a.toRat?, b.toRat? with
        | some ra, some rb =>
            .ok (.vec (col.cells.map (fun c =>
              match c.toRat? with
              | some x => decide (ra ≤ x) && decide (x ≤ rb)
              | none => false)))
        | _, _ => .error .typeErr
    | _ => .error .typeErr
  else
    match v with
    | .qmap m => complexQuery col m (.bool true)
    | .vlist vs => .ok (.vec (col.cells.map (fun c => vs.any (fun w => cellEq c w))))
    | .qlist _ => .error .typeErr
    | .cell cv => .ok (.vec (col.cells.map (fun c => cellEq c cv)))
    | .mask (.bool b) => .ok (.vec (col.cells.map (fun c => cellEq c (.bool b))))
    | _ => .ok (.vec (col.cells.map (fun _ => false)))

/-- Is the key neither a column of the table nor a reserved key?  (The
`unknown_props` test of `_properties_mask`.) -/
def unknownProp (t : Table) (k : String) : Bool :=
  decide (k ∉ t.colNames) && decide (k ∉ allKeys)

/-- The `for prop, values in queries.items()` loop of `_properties_mask`:
look each remaining key up as a column (a reserved key that survived
`_circuit_mask` raises KeyError here) and AND-fold the per-property masks
into the accumulator. -/
def propsLoop (t : Table) : QEntries → Mask → Except Err Mask
  | .nil, mask => .ok mask
  | .cons k v rest, mask =>
      match t.getCol k with
      | none => .error .keyErr
      | some col => do
          let pm ← propMask col v
          propsLoop t rest (logicalAnd [mask, pm])

/-- `_properties_mask(data, population_name, queries)`: fail-open to the
scalar `False` when any key is neither a column nor reserved; apply
`_circuit_mask`; short-circuit to scalar `False` when the circuit mask is
`False` or an all-`False` vector; otherwise fold the property masks. -/
def propertiesMask (t : Table) (popName : String) (q : QEntries) :
    Except Err Mask :=
  if q.keys.any (fun k => unknownProp t k) then .ok (.bool false)
  else do
    let cm ← circuitMask t.index popName q
    if maskIsFalse cm.snd then .ok (.bool false)
    else propsLoop t cm.fst cm.snd

/-! ### The resolution pipeline (`traverse_queries_bottom_up` + `_collect`)

`resolve_ids` deep-copies the query and runs the bottom-up traversal with
its `_collect` visitor, which replaces every value of every dict with a
mask: `$or`/`$and` lists are first resolved child by child, each child's
values are AND-folded (`_merge_queries_masks`) and the children are then
OR/AND-combined; any other key is resolved through `_properties_mask` on the
one-key dict `{key: value}`.  The traversal raises when a mapping value
mixes `$regex` with other keys, and skips recursion into pure-`$regex`
mappings.  The functions below are the traversal specialised to that
visitor, with the in-place dict mutation made explicit: they return the
rewritten dict. -/

/-- A value after resolution (`_merge_queries_masks` reads `queries.values()`
expecting masks; anything else cannot arise after the traversal). -/
def qvalAsMask : QVal → Except Err Mask
  | .mask m => .ok m
  | _ => .error .typeErr

def valuesAsMasks : QEntries → Except Err (List Mask)
  | .nil => .ok []
  | .cons _ v rest => do
      let m ← qvalAsMask v
      let ms ← valuesAsMasks rest
      .ok (m :: ms)

/-- `_merge_queries_masks(queries)`: AND-fold all values of a node. -/
def mergeMasks (q : QEntries) : Except Err Mask := do
  let ms ← valuesAsMasks q
  .ok (logicalAnd ms)

/-- `[_merge_queries_masks(query) for query in queries[key]]`. -/
def mergeSubs : QList → Except Err (List Mask)
  | .qnil => .ok []
  | .qcons q rest => do
      let m ← mergeMasks q
      let ms ← mergeSubs rest
      .ok (m :: ms)

mutual
/-- One full pass of `traverse_queries_bottom_up(queries, _collect)` over a
dict: visit each key in order, children first, and replace its value by the
corresponding mask. -/
def resolveCollect (t : Table) (popName : String) : QEntries → Except Err QEntries
  | .nil => .ok .nil
  | .cons k v rest => do
      let v' ← resolveKey t popName k v
      let rest' ← resolveCollect t popName rest
      .ok (.cons k v' rest')

/-- Processing of one key by the traversal and `_collect`:
`$or`/`$and` recurse into each sub-query, then combine the AND-folded
children (a non-list value under `$or`/`$and` fails to iterate as
sub-queries); a mapping value either raises on mixed operator/plain keys, is
left unvisited when it is pure `$regex`, or is recursed into; finally
`_collect` rewrites the value to `_properties_mask(data, population_name,
{key: value})`. -/
def resolveKey (t : Table) (popName : String) (k : String) (v : QVal) :
    Except Err QVal :=
  if k = OR_KEY then
    match v with
    | .qlist qs => do
        let qs' ← resolveSubs t popName qs
        let ms ← mergeSubs qs'
        .ok (.mask (logicalOr ms))
    | _ => .error .typeErr
  else if k = AND_KEY then
    match v with
    | .qlist qs => do
        let qs' ← resolveSubs t popName qs
        let ms ← mergeSubs qs'
        .ok (.mask (logicalAnd ms))
    | _ => .error .typeErr
  else
    match v with
    | .qmap m =>
        if m.keys.any (fun x => decide (x ∈ valueKeys)) then
          if m.keys.all (fun x => decide (x ∈ valueKeys)) then do
            let pm ← propertiesMask t popName (.cons k (.qmap m) .nil)
            .ok (.mask pm)
          else .error .mixedOperators
        else do
          let m' ← resolveCollect t popName m
          let pm ← propertiesMask t popName (.cons k (.qmap m') .nil)
          .ok (.mask pm)
    | _ => do
        let pm ← propertiesMask t popName (.cons k v .nil)
        .ok (.mask pm)

/-- `for subquery in queries[key]: traverse_queries_bottom_up(subquery, _collect)`. -/
def resolveSubs (t : Table) (popName : String) : QList → Except Err QList
  | .qnil => .ok .qnil
  | .qcons q rest => do
      let q' ← resolveCollect t popName q
      let rest' ← resolveSubs t popName rest
      .ok (.qcons q' rest')
end

/-- `resolve_ids(data, population_name, queries)`: traverse bottom-up with
`_collect`, AND-fold the root's values, and broadcast a scalar result to a
full-length vector (`np.full(len(data), fill_value=result)`), so a caller
always gets a per-row vector. -/
def resolveIds (t : Table) (popName : String) (q : QEntries) :
    Except Err (List Bool) := do
  let q' ← resolveCollect t popName q
  let result ← mergeMasks q'
  match result with
  | .bool b => .ok (List.replicate t.nrows b)
  | .vec v => .ok v

/-! ### Helper lemmas about the mask algebra and the `Except` monad -/

theorem bind_ok_eq {e a b : Type} (x : a) (f : a → Except e b) :
    (Except.ok x >>= f) = f x := rfl

theorem bind_error_eq {e a b : Type} (err : e) (f : a → Except e b) :
    ((Except.error err : Except e a) >>= f) = Except.error err := rfl

/-- AND-combining with the universal-true scalar is the identity (used by the
per-property fold, whose accumulator starts out as `True`). -/
theorem logicalAnd_true_pair (m : Mask) : logicalAnd [.bool true, m] = m := by
  cases m with
  | bool b => cases b <;> rfl
  | vec v => rfl

/-- `_logical_and` short-circuits to the scalar `False` as soon as the list
contains one. -/
theorem logicalAnd_of_mem_false (ms : List Mask) (h : Mask.bool false ∈ ms) :
    logicalAnd ms = .bool false := by
  have hscan : filterAndMasks ms = none := by
    induction ms with
    | nil => cases h
    | cons m rest ih =>
        cases m with
        | bool b =>
            cases b with
            | false => rfl
            | true =>
                have : Mask.bool false ∈ rest := by
                  cases h with
                  | tail _ hrest => exact hrest
                simp [filterAndMasks, ih this]
        | vec v =>
            have : Mask.bool false ∈ rest := by
              cases h with
              | tail _ hrest => exact hrest
            simp [filterAndMasks, ih this]
  simp [logicalAnd, hscan]

/-! ### A concrete example table, shared by the witnesses below.

Three rows with IDs `10, 20, 30`; an integer column `a`, a string column
`name` and a floating column `x`. -/

def tEx : Table :=
  { index := [10, 20, 30],
    cols := [("a", { dtype := .dInt, cells := [.int 1, .int 2, .int 1] }),
             ("name", { dtype := .dStr, cells := [.str "ax", .str "b", .str "abc"] }),
             ("x", { dtype := .dFloat, cells := [.flt 1, .flt 2, .flt 3] })] }

/-! ### Claim C7 -/

/-- **C7.**  The empty mask list is the identity input of both reducers:
`_logical_and([])` is the universal-true scalar and `_logical_or([])` is the
universal-false scalar. -/
theorem logical_and_or_empty_identity :
    logicalAnd [] = Mask.bool true ∧ logicalOr [] = Mask.bool false :=
  ⟨rfl, rfl⟩

/-! ### Claim C5 -/

/-- **C5.**  A predicate node containing at least one key that is neither a
known column name nor a reserved control key resolves, as a whole, to the
universal-false scalar, and no error is raised: the `unknown_props` test of
`_properties_mask` runs before anything else and returns `False`. -/
theorem unknown_key_resolves_node_false (t : Table) (popName : String) (q : QEntries)
    (k : String) (hk : k ∈ q.keys) (hunk : unknownProp t k = true) :
    propertiesMask t popName q = .ok (.bool false) := by
  unfold propertiesMask
  rw [if_pos (List.any_eq_true.mpr ⟨k, hk, hunk⟩)]

/-- Witness for C5: the node `{zzz: 1, a: 1}` (with `zzz` neither a column
of `tEx` nor reserved) resolves to universal-false without an error. -/
theorem unknown_key_resolves_node_false_witness :
    propertiesMask tEx "pop" (.cons "zzz" (.cell (.int 1)) (.cons "a" (.cell (.int 1)) .nil)) =
      .ok (.bool false) :=
  unknown_key_resolves_node_false tEx "pop" _ "zzz" (by decide) (by decide)

/-! ### Claim C2 -/

/-- **C2 (amended).**  On a column that is **not** floating-point, a scalar
predicate value marks exactly the rows whose column value equals the scalar
(Python `==` semantics, `cellEq`). -/
theorem scalar_predicate_equality_mask (t : Table) (popName P : String) (col : Column)
    (V : CellVal) (hcol : t.getCol P = some col) (hflt : col.dtype ≠ DType.dFloat)
    (hres : P ∉ allKeys) :
    propertiesMask t popName (.cons P (.cell V) .nil) =
      .ok (.vec (col.cells.map (fun c => cellEq c V))) := by
  have hmem : P ∈ t.colNames := by
    unfold Table.getCol at hcol
    cases hfind : t.cols.find? (fun c => c.fst = P) with
    | none => rw [hfind] at hcol; cases hcol
    | some pr =>
        have h1 : pr.fst = P := by simpa using List.find?_some hfind
        have h2 := List.mem_of_find?_eq_some hfind
        exact h1 ▸ List.mem_map_of_mem Prod.fst h2
  have hunk : unknownProp t P = false := by
    simp [unknownProp, hmem]
  have hP : ∀ K : String, K ∈ allKeys → P ≠ K := fun K hK h => hres (h ▸ hK)
  have hpop : ¬(P = POPULATION_KEY) := hP _ (by decide)
  have hedge : ¬(P = EDGE_ID_KEY) := hP _ (by decide)
  have hnode : ¬(P = NODE_ID_KEY) := hP _ (by decide)
  simp [propertiesMask, QEntries.keys, hunk, circuitMask, QEntries.popKey, hpop, hedge,
    hnode, positionalMask, maskIsFalse, bind_ok_eq, bind_error_eq, propsLoop, hcol, propMask, hflt,
    logicalAnd_true_pair]

/-- Witness for C2 (amended): `{a: 1}` on the integer column of `tEx` marks
exactly the rows with value `1`. -/
theorem scalar_predicate_equality_mask_witness :
    propertiesMask tEx "pop" (.cons "a" (.cell (.int 1)) .nil) =
      .ok (.vec [true, false, true]) :=
  (scalar_predicate_equality_mask tEx "pop" "a"
      { dtype := .dInt, cells := [.int 1, .int 2, .int 1] } (.int 1)
      rfl (by decide) (by decide)).trans rfl

/-- **C2 (counterexample).**  The claim fails on floating-point columns: the
column-dtype test of `_properties_mask` runs before the value-shape
dispatch, so a scalar under a floating column is unpacked as a two-element
range (`v1, v2 = values`) and raises a TypeError instead of producing an
equality mask — even when the scalar is equal to a cell.  Here: `{x: 1.0}`
on the floating column `x` of `tEx`. -/
theorem scalar_on_float_column_raises :
    propertiesMask tEx "pop" (.cons "x" (.cell (.flt 1)) .nil) = .error Err.typeErr := rfl

/-! ### Claim C3 -/

/-- Full-string matching of one cell: the spec reading of the regex
predicate, with the pattern anchored at both the start and the end. -/
def cellFullMatch (r : Regex) : CellVal → Bool
  | .str s => dmatch r s.data
  | _ => false

/-- **C3 (amended).**  For a pattern whose top level is not an alternation,
`{P: {$regex: R}}` selects exactly the rows whose full string value matches
`R`: the appended `\Z` anchor, together with `re.match`'s start anchoring,
yields a full-string match. -/
theorem regex_predicate_full_string_match (t : Table) (popName P : String) (col : Column)
    (r : Regex) (hcol : t.getCol P = some col) (hstr : col.dtype = DType.dStr)
    (hres : P ∉ allKeys) (htop : r.isTopAlt = false) :
    propertiesMask t popName (.cons P (.qmap (.cons REGEX_KEY (.rgx r) .nil)) .nil) =
      .ok (.vec (col.cells.map (cellFullMatch r))) := by
  have hmem : P ∈ t.colNames := by
    unfold Table.getCol at hcol
    cases hfind : t.cols.find? (fun c => c.fst = P) with
    | none => rw [hfind] at hcol; cases hcol
    | some pr =>
        have h1 : pr.fst = P := by simpa using List.find?_some hfind
        have h2 := List.mem_of_find?_eq_some hfind
        exact h1 ▸ List.mem_map_of_mem Prod.fst h2
  have hunk : unknownProp t P = false := by
    simp [unknownProp, hmem]
  have hP : ∀ K : String, K ∈ allKeys → P ≠ K := fun K hK h => hres (h ▸ hK)
  have hpop : ¬(P = POPULATION_KEY) := hP _ (by decide)
  have hedge : ¬(P = EDGE_ID_KEY) := hP _ (by decide)
  have hnode : ¬(P = NODE_ID_KEY) := hP _ (by decide)
  have hflt : ¬(col.dtype = DType.dFloat) := by rw [hstr]; decide
  have hfn : (fun c : CellVal =>
      (match c with
        | .str s => pyStrMatchZ r s
        | _ => false)) = cellFullMatch r := by
    funext c
    cases c <;>
      simp [cellFullMatch, pyStrMatchZ, appendZ_of_not_topAlt r htop, pmatch_cat_endA]
  simp [propertiesMask, QEntries.keys, hunk, circuitMask, QEntries.popKey, hpop, hedge,
    hnode, positionalMask, maskIsFalse, bind_ok_eq, bind_error_eq, propsLoop, hcol, propMask, hflt,
    complexQuery, REGEX_KEY, strMatchMask, hstr, logicalAnd_true_pair, hfn]

/-- Witness for C3 (amended): `{name: {$regex: "ab."}}` on the string column
of `tEx` selects exactly the full-string matches (only `"abc"`). -/
theorem regex_predicate_full_string_match_witness :
    propertiesMask tEx "pop"
        (.cons "name"
          (.qmap (.cons REGEX_KEY (.rgx (.cat (.chr 'a') (.cat (.chr 'b') .dot))) .nil)) .nil) =
      .ok (.vec [false, false, true]) :=
  (regex_predicate_full_string_match tEx "pop" "name"
      { dtype := .dStr, cells := [.str "ax", .str "b", .str "abc"] }
      (.cat (.chr 'a') (.cat (.chr 'b') .dot))
      rfl rfl (by decide) rfl).trans rfl

/-- **C3 (counterexample).**  The claim fails for patterns with a top-level
alternation: `value + r"\Z"` anchors only the last alternative, so with
`R = a|b` the row `"ax"` — in which `R` matches only the proper substring
`"a"` — **is** selected, although `R` does not match the full string. -/
theorem regex_alternation_escapes_anchor :
    propertiesMask tEx "pop"
        (.cons "name" (.qmap (.cons "$regex" (.rgx (.alt (.chr 'a') (.chr 'b'))) .nil)) .nil) =
      .ok (.vec [true, true, true]) ∧
    dmatch (.alt (.chr 'a') (.chr 'b')) "ax".data = false :=
  ⟨rfl, rfl⟩

/-! ### Claim C8 -/

/-- A found index points below the length and at the sought element. -/
theorem findIdx?_eq_some_getD (i : Int) :
    ∀ (l : List Int) (p : Nat),
      l.findIdx? (fun x => decide (x = i)) = some p → p < l.length ∧ l.getD p 0 = i := by
  intro l
  induction l with
  | nil => intro p h; rw [List.findIdx?_nil] at h; cases h
  | cons a l ih =>
      intro p h
      rw [List.findIdx?_cons] at h
      by_cases ha : a = i
      · rw [if_pos (by simpa using ha)] at h
        cases h
        exact ⟨Nat.succ_pos _, by simpa using ha⟩
      · rw [if_neg (by simpa using ha), List.findIdx?_succ] at h
        cases hfind : List.findIdx? (fun x => decide (x = i)) l with
        | none => rw [hfind] at h; cases h
        | some p' =>
            rw [hfind] at h
            cases h
            have := ih p' hfind
            exact ⟨Nat.succ_lt_succ this.1, by simpa using this.2⟩

/-- In a duplicate-free index, the position holding the sought element is the
one that `findIdx?` returns. -/
theorem findIdx?_of_nodup (i : Int) :
    ∀ (l : List Int) (p : Nat), l.Nodup → p < l.length → l.getD p 0 = i →
      l.findIdx? (fun x => decide (x = i)) = some p := by
  intro l
  induction l with
  | nil => intro p _ hp _; cases hp
  | cons a l ih =>
      intro p hnd hp hget
      rw [List.nodup_cons] at hnd
      cases p with
      | zero =>
          rw [List.getD_cons_zero] at hget
          rw [List.findIdx?_cons, if_pos (by simpa using hget)]
      | succ p =>
          rw [List.getD_cons_succ] at hget
          have hp' : p < l.length := Nat.lt_of_succ_lt_succ hp
          have hmem : i ∈ l := by
            have := List.getD_eq_getElem l 0 hp'
            rw [hget] at this
            exact this ▸ List.getElem_mem hp'
          have hne : ¬(a = i) := fun h => hnd.1 (h ▸ hmem)
          rw [List.findIdx?_cons, if_neg (by simpa using hne), List.findIdx?_succ,
            ih p hnd.2 hp' hget]
          rfl

/-- **C8.**  For every table index and every requested ID list, the
positional mask is a full-length vector that is `True` exactly at the
positions whose index entry occurs in the requested list: duplicate
requested IDs mark a position once (a boolean can only be set), absent IDs
contribute nothing and raise no error. -/
theorem positional_mask_marks_existing_ids (index : List Int) (ids : List Int)
    (hnd : index.Nodup) :
    positionalMask index (some (.vlist (ids.map CellVal.int))) =
      .ok (.vec ((List.range index.length).map
        (fun p => decide (index.getD p 0 ∈ ids)))) := by
  have h0 : positionalMask index (some (.vlist (ids.map CellVal.int))) =
      .ok (.vec ((List.range index.length).map (fun p =>
        ((ids.map CellVal.int).filterMap (fun c =>
          match c.toIndexInt? with
          | some i => index.findIdx? (fun x => decide (x = i))
          | none => none)).contains p))) := rfl
  rw [h0, List.filterMap_map]
  refine congrArg (fun v => Except.ok (Mask.vec v)) (List.map_congr_left ?_)
  intro p hp
  rw [List.mem_range] at hp
  have hcomp : ((fun c : CellVal =>
      match c.toIndexInt? with
      | some i => index.findIdx? (fun x => decide (x = i))
      | none => none) ∘ CellVal.int) =
      fun i => index.findIdx? (fun x => decide (x = i)) := rfl
  rw [hcomp]
  have hc : ∀ (l : List Nat) (x : Nat), l.contains x = decide (x ∈ l) := by
    intro l x
    rw [← List.elem_eq_mem]
  rw [hc, decide_eq_decide]
  constructor
  · intro hmem
    rcases List.mem_filterMap.mp hmem with ⟨i, hi, hfind⟩
    rcases findIdx?_eq_some_getD i index p hfind with ⟨_, hget⟩
    rw [hget]
    exact hi
  · intro hmem
    exact List.mem_filterMap.mpr
      ⟨index.getD p 0, hmem, findIdx?_of_nodup _ index p hnd hp rfl⟩

/-- Witness for C8: index `[10, 20, 30]`, requested IDs `[20, 20, 99]` — the
duplicated `20` marks its row once, `99` is absent and silently ignored. -/
theorem positional_mask_marks_existing_ids_witness :
    positionalMask [10, 20, 30] (some (.vlist ([20, 20, 99].map CellVal.int))) =
      .ok (.vec [false, true, false]) :=
  (positional_mask_marks_existing_ids [10, 20, 30] [20, 20, 99] (by decide)).trans rfl

/-! ### Claim C10 : dict `pop` helper lemmas, then `_circuit_mask` -/

theorem popKey_not_mem (k : String) : ∀ (q : QEntries), k ∉ q.keys → q.popKey k = (none, q)
  | .nil, _ => rfl
  | .cons k' v rest, h => by
      have h1 : ¬(k' = k) := fun he => h (he ▸ List.mem_cons_self k' _)
      have h2 : k ∉ rest.keys := fun hm => h (List.mem_cons_of_mem _ hm)
      simp [QEntries.popKey, h1, popKey_not_mem k rest h2]

theorem popKey_fst_eq_getKey? (k : String) : ∀ (q : QEntries),
    (q.popKey k).fst = q.getKey? k
  | .nil => rfl
  | .cons k' v rest => by
      by_cases h : k' = k
      · simp [QEntries.popKey, QEntries.getKey?, h]
      · simp [QEntries.popKey, QEntries.getKey?, h, popKey_fst_eq_getKey? k rest]

theorem getKey?_popKey_other (k k' : String) (h : ¬(k' = k)) : ∀ (q : QEntries),
    (q.popKey k).snd.getKey? k' = q.getKey? k'
  | .nil => rfl
  | .cons k0 v rest => by
      by_cases h0 : k0 = k
      · subst h0
        have h2 : ¬(k0 = k') := fun he => h he.symm
        simp [QEntries.popKey, QEntries.getKey?, h2]
      · by_cases h1 : k0 = k'
        · subst h1
          simp [QEntries.popKey, QEntries.getKey?, h0]
        · simp [QEntries.popKey, QEntries.getKey?, h0, h1, getKey?_popKey_other k k' h rest]

theorem keys_popKey_subset (k x : String) : ∀ (q : QEntries),
    x ∈ (q.popKey k).snd.keys → x ∈ q.keys
  | .nil => fun h => h
  | .cons k' v rest => by
      by_cases h : k' = k
      · intro hm
        simp only [QEntries.popKey, if_pos h] at hm
        exact List.mem_cons_of_mem _ hm
      · intro hm
        simp only [QEntries.popKey, if_neg h, QEntries.keys] at hm
        cases hm with
        | head => exact List.mem_cons_self _ _
        | tail _ hm' => exact List.mem_cons_of_mem _ (keys_popKey_subset k x rest hm')

theorem keys_popKey_nodup (k : String) : ∀ (q : QEntries), q.keys.Nodup →
    (q.popKey k).snd.keys.Nodup
  | .nil, hnd => hnd
  | .cons k' v rest, hnd => by
      rw [QEntries.keys, List.nodup_cons] at hnd
      by_cases h : k' = k
      · simp only [QEntries.popKey, if_pos h]
        exact hnd.2
      · simp only [QEntries.popKey, if_neg h, QEntries.keys]
        exact List.nodup_cons.mpr
          ⟨fun hm => hnd.1 (keys_popKey_subset k k' rest hm), keys_popKey_nodup k rest hnd.2⟩

theorem popKey_self_not_mem (k : String) : ∀ (q : QEntries), q.keys.Nodup →
    k ∉ (q.popKey k).snd.keys
  | .nil, _ => fun h => by cases h
  | .cons k' v rest, hnd => by
      rw [QEntries.keys, List.nodup_cons] at hnd
      by_cases h : k' = k
      · simp only [QEntries.popKey, if_pos h]
        exact h ▸ hnd.1
      · simp only [QEntries.popKey, if_neg h, QEntries.keys]
        intro hm
        cases hm with
        | head => exact h rfl
        | tail _ hm' => exact popKey_self_not_mem k rest hnd.2 hm'

/-- **C10.**  When a predicate node reaches `_circuit_mask` with both a
`node_id` and an `edge_id` key (and no population key), both keys are
removed from the node — `queries.pop(EDGE_ID_KEY, None)` is evaluated first
as the default argument of `queries.pop(NODE_ID_KEY, ...)` — the positional
mask is computed from the `node_id` value alone, and the `edge_id` value is
silently ignored (the result mentions only `nv`). -/
theorem circuit_mask_node_id_wins (index : List Int) (popName : String) (q : QEntries)
    (nv : QVal) (hpop : POPULATION_KEY ∉ q.keys) (hnode : q.getKey? NODE_ID_KEY = some nv)
    (hedge : EDGE_ID_KEY ∈ q.keys) (hnd : q.keys.Nodup) :
    circuitMask index popName q =
      (positionalMask index (some nv)).map
        (fun m => (((q.popKey EDGE_ID_KEY).snd.popKey NODE_ID_KEY).snd, m)) ∧
    NODE_ID_KEY ∉ ((q.popKey EDGE_ID_KEY).snd.popKey NODE_ID_KEY).snd.keys ∧
    EDGE_ID_KEY ∉ ((q.popKey EDGE_ID_KEY).snd.popKey NODE_ID_KEY).snd.keys := by
  have h1 : q.popKey POPULATION_KEY = (none, q) := popKey_not_mem _ _ hpop
  have h3 : ((q.popKey EDGE_ID_KEY).snd.popKey NODE_ID_KEY).fst = some nv := by
    rw [popKey_fst_eq_getKey?,
      getKey?_popKey_other EDGE_ID_KEY NODE_ID_KEY (by decide) q]
    exact hnode
  refine ⟨?_, ?_, ?_⟩
  · unfold circuitMask
    rw [h1]
    simp only [h3]
    cases hm : positionalMask index (some nv) with
    | ok m => simp [bind_ok_eq, Except.map, hm]
    | error e => simp [bind_error_eq, Except.map, hm]
  · exact popKey_self_not_mem NODE_ID_KEY _ (keys_popKey_nodup EDGE_ID_KEY q hnd)
  · intro hm
    exact popKey_self_not_mem EDGE_ID_KEY q hnd (keys_popKey_subset NODE_ID_KEY EDGE_ID_KEY _ hm)

/-- Witness for C10: a node holding `node_id: [20]` and `edge_id: [10]` —
the mask selects the row of ID `20`, both keys are gone. -/
theorem circuit_mask_node_id_wins_witness :
    circuitMask [10, 20, 30] "pop"
        (.cons NODE_ID_KEY (.vlist [.int 20]) (.cons EDGE_ID_KEY (.vlist [.int 10]) .nil)) =
      .ok (.nil, .vec [false, true, false]) :=
  ((circuit_mask_node_id_wins [10, 20, 30] "pop"
      (.cons NODE_ID_KEY (.vlist [.int 20]) (.cons EDGE_ID_KEY (.vlist [.int 10]) .nil))
      (.vlist [.int 20]) (by decide) rfl (by decide) (by decide)).1).trans rfl

/-! ### Claim C4 : inversion helpers, then the population-mismatch theorem -/

/-- Inversion of a successful `Except` bind. -/
theorem bind_ok_inv {e a b : Type} (x : Except e a) (f : a → Except e b) (r : b)
    (h : (x >>= f) = .ok r) : ∃ y, x = .ok y ∧ f y = .ok r := by
  cases x with
  | ok y => exact ⟨y, rfl, h⟩
  | error err => cases h

/-- Every successful `_collect` rewrite produces a mask value: each `.ok`
branch of `resolveKey` constructs `.mask`. -/
theorem resolveKey_ok_isMask (t : Table) (popName k : String) (v v' : QVal)
    (h : resolveKey t popName k v = .ok v') : ∃ m, v' = .mask m := by
  unfold resolveKey at h
  split at h
  · -- `$or`
    split at h
    · rcases bind_ok_inv _ _ _ h with ⟨qs', _, h2⟩
      rcases bind_ok_inv _ _ _ h2 with ⟨ms, _, h3⟩
      cases h3
      exact ⟨_, rfl⟩
    · cases h
  · split at h
    · -- `$and`
      split at h
      · rcases bind_ok_inv _ _ _ h with ⟨qs', _, h2⟩
        rcases bind_ok_inv _ _ _ h2 with ⟨ms, _, h3⟩
        cases h3
        exact ⟨_, rfl⟩
      · cases h
    · -- plain key
      split at h
      · -- mapping value
        split at h
        · split at h
          · rcases bind_ok_inv _ _ _ h with ⟨pm, _, h2⟩
            cases h2
            exact ⟨_, rfl⟩
          · cases h
        · rcases bind_ok_inv _ _ _ h with ⟨m', _, h2⟩
          rcases bind_ok_inv _ _ _ h2 with ⟨pm, _, h3⟩
          cases h3
          exact ⟨_, rfl⟩
      · rcases bind_ok_inv _ _ _ h with ⟨pm, _, h2⟩
        cases h2
        exact ⟨_, rfl⟩

/-- After a successful traversal every value of the rewritten dict is a
mask, so `_merge_queries_masks` can read them all. -/
theorem resolveCollect_values_masks (t : Table) (popName : String) : ∀ (q q' : QEntries),
    resolveCollect t popName q = .ok q' → ∃ ms, valuesAsMasks q' = .ok ms
  | .nil, q', h => by
      cases h
      exact ⟨[], rfl⟩
  | .cons k v rest, q', h => by
      simp only [resolveCollect] at h
      rcases bind_ok_inv _ _ _ h with ⟨v', hv, h2⟩
      rcases bind_ok_inv _ _ _ h2 with ⟨rest', hrest, h3⟩
      cases h3
      rcases resolveKey_ok_isMask t popName k v v' hv with ⟨m, rfl⟩
      rcases resolveCollect_values_masks t popName rest rest' hrest with ⟨ms, hms⟩
      exact ⟨m :: ms, by simp [valuesAsMasks, qvalAsMask, hms, bind_ok_eq]⟩

theorem filterAndMasks_none_of_false (ms : List Mask) (h : logicalAnd ms = .bool false) :
    filterAndMasks ms = none := by
  unfold logicalAnd at h
  cases hf : filterAndMasks ms with
  | none => rfl
  | some l =>
      rw [hf] at h
      cases l with
      | nil => cases h
      | cons v vs => cases h

/-- Prepending any mask keeps a `False` AND-fold `False`. -/
theorem logicalAnd_cons_false (m : Mask) (ms : List Mask) (h : logicalAnd ms = .bool false) :
    logicalAnd (m :: ms) = .bool false := by
  have hf := filterAndMasks_none_of_false ms h
  cases m with
  | bool b =>
      cases b with
      | false => rfl
      | true =>
          unfold logicalAnd filterAndMasks
          rw [hf]
  | vec v =>
      unfold logicalAnd filterAndMasks
      rw [hf]
      rfl

/-- A reserved key can never be an unknown property. -/
theorem unknownProp_reserved (t : Table) (k : String) (hk : k ∈ allKeys) :
    unknownProp t k = false := by
  unfold unknownProp
  rw [show (decide (k ∉ allKeys)) = false from by simp [hk], Bool.and_false]

/-- The empty requested-ID list produces a mask that the all-false test of
`_properties_mask` recognises. -/
theorem posMaskIds_nil_isFalse (index : List Int) :
    maskIsFalse (posMaskIds index []) = true := by
  unfold posMaskIds maskIsFalse
  simp only [List.filterMap_nil]
  suffices h : ((List.range index.length).map (fun p => ([] : List Nat).contains p)).any id = false by
    rw [h]
    rfl
  rw [Bool.eq_false_iff]
  intro hany
  rcases List.any_eq_true.mp hany with ⟨x, hx, hid⟩
  rcases List.mem_map.mp hx with ⟨p, _, hpx⟩
  rw [← hpx] at hid
  cases hid

/-- Resolving the single key `population` whose (plain) value does not name
the current population yields the universal-false mask: `_circuit_mask`
forces the IDs to `[]`, the positional mask is all-false, and
`_properties_mask` short-circuits to `False` without touching anything
else. -/
theorem resolveKey_population_mismatch (t : Table) (popName : String) (pv : QVal)
    (hshape : (∃ c, pv = QVal.cell c) ∨ (∃ vs, pv = QVal.vlist vs))
    (hmis : popMatchesE popName pv = .ok false) :
    resolveKey t popName POPULATION_KEY pv = .ok (.mask (.bool false)) := by
  have hprop : propertiesMask t popName (.cons POPULATION_KEY pv .nil) = .ok (.bool false) := by
    unfold propertiesMask
    rw [if_neg (by
      simp [QEntries.keys, unknownProp_reserved t POPULATION_KEY (by decide)])]
    unfold circuitMask
    rw [show QEntries.popKey POPULATION_KEY (.cons POPULATION_KEY pv .nil) =
      (some pv, .nil) from by simp [QEntries.popKey]]
    simp only [hmis, bind_ok_eq, Bool.false_eq_true, if_false]
    rw [show positionalMask t.index (some (.vlist [])) = .ok (posMaskIds t.index []) from rfl]
    simp only [bind_ok_eq]
    rw [if_pos (posMaskIds_nil_isFalse t.index)]
  have hor : ¬(POPULATION_KEY = OR_KEY) := by decide
  have hand : ¬(POPULATION_KEY = AND_KEY) := by decide
  rcases hshape with ⟨c, rfl⟩ | ⟨vs, rfl⟩ <;>
    simp [resolveKey, hor, hand, hprop, bind_ok_eq]

/-- **C4 (amended).**  A predicate branch containing a `population` key
whose (scalar or list) value does not include the current population name
AND-folds to the universal-false scalar — `resolve_ids` resolves each key of
the branch separately and the population key contributes `False`, which
annihilates `_logical_and` — *provided* the resolution of every sibling key
succeeds.  (The original claim promised this "regardless of any other keys"
with "no error"; the counterexample below shows a sibling key can still
raise.) -/
theorem population_mismatch_branch_false (t : Table) (popName : String) (pv : QVal)
    (hshape : (∃ c, pv = QVal.cell c) ∨ (∃ vs, pv = QVal.vlist vs))
    (hmis : popMatchesE popName pv = .ok false) : ∀ (q q' : QEntries),
    q.getKey? POPULATION_KEY = some pv →
    resolveCollect t popName q = .ok q' →
    mergeMasks q' = .ok (.bool false)
  | .nil, _, hget, _ => by cases hget
  | .cons k v rest, q', hget, hres => by
      simp only [resolveCollect] at hres
      rcases bind_ok_inv _ _ _ hres with ⟨v', hv, h2⟩
      rcases bind_ok_inv _ _ _ h2 with ⟨rest', hrest, h3⟩
      cases h3
      by_cases hk : k = POPULATION_KEY
      · subst hk
        rw [QEntries.getKey?, if_pos rfl] at hget
        cases hget
        rw [resolveKey_population_mismatch t popName pv hshape hmis] at hv
        cases hv
        rcases resolveCollect_values_masks t popName rest rest' hrest with ⟨ms, hms⟩
        unfold mergeMasks
        rw [show valuesAsMasks (QEntries.cons POPULATION_KEY (QVal.mask (Mask.bool false)) rest') =
          .ok (Mask.bool false :: ms) from by
            simp [valuesAsMasks, qvalAsMask, hms, bind_ok_eq], bind_ok_eq]
        rw [logicalAnd_of_mem_false _ (List.mem_cons_self _ _)]
      · rw [QEntries.getKey?, if_neg hk] at hget
        have ih := population_mismatch_branch_false t popName pv hshape hmis rest rest' hget hrest
        rcases resolveKey_ok_isMask t popName k v v' hv with ⟨m, rfl⟩
        unfold mergeMasks at ih ⊢
        rcases bind_ok_inv _ _ _ ih with ⟨ms, hms, hand⟩
        injection hand with hand
        rw [show valuesAsMasks (QEntries.cons k (QVal.mask m) rest') = .ok (m :: ms) from by
          simp [valuesAsMasks, qvalAsMask, hms, bind_ok_eq], bind_ok_eq]
        rw [logicalAnd_cons_false m ms hand]

/-- Witness for C4 (amended): the branch
`{population: "X", a: 1}` against population `"Y"` of `tEx` resolves and
AND-folds to universal-false. -/
theorem population_mismatch_branch_false_witness :
    mergeMasks (.cons POPULATION_KEY (.mask (.bool false))
      (.cons "a" (.mask (.vec [true, false, true])) .nil)) = .ok (.bool false) :=
  population_mismatch_branch_false tEx "Y" (.cell (.str "X"))
    (Or.inl ⟨CellVal.str "X", rfl⟩) rfl
    (.cons POPULATION_KEY (.cell (.str "X")) (.cons "a" (.cell (.int 1)) .nil))
    (.cons POPULATION_KEY (.mask (.bool false))
      (.cons "a" (.mask (.vec [true, false, true])) .nil))
    rfl rfl

/-- **C4 (counterexample).**  The claim's "regardless of any other keys …
and no error is raised" fails at the pipeline level: `resolve_ids` resolves
each key of the branch on its own, so the sibling predicate
`a: {$gt: 0}` (a mapping with an unsupported operator under a known column)
still raises `Unknown query modifier` even though the branch's `population`
key mismatches the table's population. -/
theorem population_mismatch_sibling_error :
    resolveIds tEx "Y"
        (.cons POPULATION_KEY (.cell (.str "X"))
          (.cons "a" (.qmap (.cons "$gt" (.cell (.int 0)) .nil)) .nil)) =
      .error (.unknownModifier "$gt") := rfl

/-! ### Claim C1 : every mask in play is a scalar or a vector of the row count -/

/-- The shape invariant of masks: a scalar, or a vector aligned with the
`n` rows of the table. -/
def maskOK (n : Nat) : Mask → Prop
  | .bool _ => True
  | .vec v => v.length = n

theorem andVec_length (n : Nat) (a b : List Bool) (ha : a.length = n) (hb : b.length = n) :
    (andVec a b).length = n := by
  rw [andVec, List.length_zipWith, ha, hb]
  exact Nat.min_self n

theorem orVec_length (n : Nat) (a b : List Bool) (ha : a.length = n) (hb : b.length = n) :
    (orVec a b).length = n := by
  rw [orVec, List.length_zipWith, ha, hb]
  exact Nat.min_self n

theorem foldl_andVec_length (n : Nat) : ∀ (vs : List (List Bool)) (v : List Bool),
    v.length = n → (∀ w ∈ vs, w.length = n) → (vs.foldl andVec v).length = n
  | [], v, hv, _ => hv
  | w :: vs, v, hv, hws => by
      rw [List.foldl_cons]
      exact foldl_andVec_length n vs (andVec v w)
        (andVec_length n v w hv (hws w (List.mem_cons_self _ _)))
        (fun w' hw' => hws w' (List.mem_cons_of_mem _ hw'))

theorem foldl_orVec_length (n : Nat) : ∀ (vs : List (List Bool)) (v : List Bool),
    v.length = n → (∀ w ∈ vs, w.length = n) → (vs.foldl orVec v).length = n
  | [], v, hv, _ => hv
  | w :: vs, v, hv, hws => by
      rw [List.foldl_cons]
      exact foldl_orVec_length n vs (orVec v w)
        (orVec_length n v w hv (hws w (List.mem_cons_self _ _)))
        (fun w' hw' => hws w' (List.mem_cons_of_mem _ hw'))

theorem filterAndMasks_lengths (n : Nat) : ∀ (ms : List Mask) (l : List (List Bool)),
    (∀ m ∈ ms, maskOK n m) → filterAndMasks ms = some l → ∀ v ∈ l, v.length = n
  | [], l, _, h => by
      cases h
      intro v hv
      cases hv
  | .bool false :: ms, l, _, h => by cases h
  | .bool true :: ms, l, hok, h =>
      filterAndMasks_lengths n ms l (fun m hm => hok m (List.mem_cons_of_mem _ hm)) h
  | .vec v :: ms, l, hok, h => by
      simp only [filterAndMasks] at h
      cases hf : filterAndMasks ms with
      | none => rw [hf] at h; cases h
      | some l' =>
          rw [hf] at h
          cases h
          intro w hw
          cases hw with
          | head => exact hok (.vec v) (List.mem_cons_self _ _)
          | tail _ hw' =>
              exact filterAndMasks_lengths n ms l'
                (fun m hm => hok m (List.mem_cons_of_mem _ hm)) hf w hw'

theorem filterOrMasks_lengths (n : Nat) : ∀ (ms : List Mask) (l : List (List Bool)),
    (∀ m ∈ ms, maskOK n m) → filterOrMasks ms = some l → ∀ v ∈ l, v.length = n
  | [], l, _, h => by
      cases h
      intro v hv
      cases hv
  | .bool true :: ms, l, _, h => by cases h
  | .bool false :: ms, l, hok, h =>
      filterOrMasks_lengths n ms l (fun m hm => hok m (List.mem_cons_of_mem _ hm)) h
  | .vec v :: ms, l, hok, h => by
      simp only [filterOrMasks] at h
      cases hf : filterOrMasks ms with
      | none => rw [hf] at h; cases h
      | some l' =>
          rw [hf] at h
          cases h
          intro w hw
          cases hw with
          | head => exact hok (.vec v) (List.mem_cons_self _ _)
          | tail _ hw' =>
              exact filterOrMasks_lengths n ms l'
                (fun m hm => hok m (List.mem_cons_of_mem _ hm)) hf w hw'

/-- `_logical_and` of shape-correct masks is shape-correct. -/
theorem logicalAnd_maskOK (n : Nat) (ms : List Mask) (hok : ∀ m ∈ ms, maskOK n m) :
    maskOK n (logicalAnd ms) := by
  unfold logicalAnd
  cases hf : filterAndMasks ms with
  | none => trivial
  | some l =>
      cases l with
      | nil => trivial
      | cons v vs =>
          have hl := filterAndMasks_lengths n ms (v :: vs) hok hf
          exact foldl_andVec_length n vs v (hl v (List.mem_cons_self _ _))
            (fun w hw => hl w (List.mem_cons_of_mem _ hw))

/-- `_logical_or` of shape-correct masks is shape-correct. -/
theorem logicalOr_maskOK (n : Nat) (ms : List Mask) (hok : ∀ m ∈ ms, maskOK n m) :
    maskOK n (logicalOr ms) := by
  unfold logicalOr
  cases hf : filterOrMasks ms with
  | none => trivial
  | some l =>
      cases l with
      | nil => trivial
      | cons v vs =>
          have hl := filterOrMasks_lengths n ms (v :: vs) hok hf
          exact foldl_orVec_length n vs v (hl v (List.mem_cons_self _ _))
            (fun w hw => hl w (List.mem_cons_of_mem _ hw))

theorem logicalAnd_maskOK_pair (n : Nat) (a b : Mask) (ha : maskOK n a) (hb : maskOK n b) :
    maskOK n (logicalAnd [a, b]) := by
  refine logicalAnd_maskOK n [a, b] ?_
  intro m hm
  cases hm with
  | head => exact ha
  | tail _ hm' =>
      cases hm' with
      | head => exact hb
      | tail _ hm'' => cases hm''

theorem posMaskIds_maskOK (index : List Int) (vs : List CellVal) :
    maskOK index.length (posMaskIds index vs) := by
  simp [posMaskIds, maskOK]

/-- `_positional_mask` always returns a scalar or a vector of the table's
row count. -/
theorem positionalMask_maskOK (index : List Int) (ids : Option QVal) (m : Mask)
    (h : positionalMask index ids = .ok m) : maskOK index.length m := by
  unfold positionalMask at h
  split at h
  · cases h; trivial
  · cases h; exact posMaskIds_maskOK index _
  · cases h; exact posMaskIds_maskOK index _
  · cases h; exact posMaskIds_maskOK index _
  · cases h

/-- `_circuit_mask` always returns a scalar or a vector of the table's row
count as its mask component. -/
theorem circuitMask_maskOK (index : List Int) (popName : String) (q : QEntries)
    (cm : QEntries × Mask) (h : circuitMask index popName q = .ok cm) :
    maskOK index.length cm.snd := by
  unfold circuitMask at h
  dsimp only at h
  split at h
  · rcases bind_ok_inv _ _ _ h with ⟨b, _, h2⟩
    split at h2
    · rcases bind_ok_inv _ _ _ h2 with ⟨m, hm, h3⟩
      cases h3
      exact positionalMask_maskOK index _ m hm
    · rcases bind_ok_inv _ _ _ h2 with ⟨m, hm, h3⟩
      cases h3
      exact positionalMask_maskOK index _ m hm
  · rcases bind_ok_inv _ _ _ h with ⟨m, hm, h2⟩
    cases h2
    exact positionalMask_maskOK index _ m hm

theorem strMatchMask_maskOK (n : Nat) (col : Column) (r : Regex) (m : Mask)
    (hlen : col.cells.length = n) (h : strMatchMask col r = .ok m) : maskOK n m := by
  unfold strMatchMask at h
  split at h
  · cases h
    simp [maskOK, hlen]
  · cases h

theorem complexQuery_maskOK (n : Nat) (col : Column) (hlen : col.cells.length = n) :
    ∀ (q : QEntries) (acc m : Mask),
      maskOK n acc → complexQuery col q acc = .ok m → maskOK n m
  | .nil, acc, m, hacc, h => by cases h; exact hacc
  | .cons k v rest, acc, m, hacc, h => by
      simp only [complexQuery] at h
      split at h
      · split at h
        · rcases bind_ok_inv _ _ _ h with ⟨sm, hsm, h2⟩
          exact complexQuery_maskOK n col hlen rest _ m
            (logicalAnd_maskOK_pair n acc sm hacc (strMatchMask_maskOK n col _ sm hlen hsm)) h2
        · cases h
      · cases h

/-- The per-property dispatch returns a shape-correct mask. -/
theorem propMask_maskOK (n : Nat) (col : Column) (v : QVal) (m : Mask)
    (hlen : col.cells.length = n) (h : propMask col v = .ok m) : maskOK n m := by
  unfold propMask at h
  split at h
  · split at h
    · split at h
      · cases h
        simp [maskOK, hlen]
      · cases h
    · cases h
  · split at h
    · exact complexQuery_maskOK n col hlen _ (.bool true) m trivial h
    · cases h
      simp [maskOK, hlen]
    · cases h
    · cases h
      simp [maskOK, hlen]
    · cases h
      simp [maskOK, hlen]
    · cases h
      simp [maskOK, hlen]

/-- In a well-formed table every column found by `getCol` has one cell per
row. -/
theorem getCol_length (t : Table) (k : String) (col : Column) (hwf : t.wf = true)
    (h : t.getCol k = some col) : col.cells.length = t.nrows := by
  unfold Table.getCol at h
  cases hfind : t.cols.find? (fun c => c.fst = k) with
  | none => rw [hfind] at h; cases h
  | some pr =>
      rw [hfind] at h
      cases h
      have hmem := List.mem_of_find?_eq_some hfind
      unfold Table.wf at hwf
      have := List.all_eq_true.mp hwf pr hmem
      rw [Bool.and_eq_true] at this
      exact of_decide_eq_true this.1

theorem propsLoop_maskOK (t : Table) (hwf : t.wf = true) : ∀ (q : QEntries) (acc m : Mask),
    maskOK t.nrows acc → propsLoop t q acc = .ok m → maskOK t.nrows m
  | .nil, acc, m, hacc, h => by cases h; exact hacc
  | .cons k v rest, acc, m, hacc, h => by
      simp only [propsLoop] at h
      split at h
      · cases h
      · rename_i col hcol
        rcases bind_ok_inv _ _ _ h with ⟨pm, hpm, h2⟩
        exact propsLoop_maskOK t hwf rest _ m
          (logicalAnd_maskOK_pair _ acc pm hacc
            (propMask_maskOK t.nrows col v pm (getCol_length t k col hwf hcol) hpm)) h2

/-- `_properties_mask` on a well-formed table returns a scalar or a vector of
the table's row count. -/
theorem propertiesMask_maskOK (t : Table) (popName : String) (q : QEntries) (m : Mask)
    (hwf : t.wf = true) (h : propertiesMask t popName q = .ok m) : maskOK t.nrows m := by
  unfold propertiesMask at h
  split at h
  · cases h; trivial
  · rcases bind_ok_inv _ _ _ h with ⟨cm, hcm, h2⟩
    split at h2
    · cases h2; trivial
    · exact propsLoop_maskOK t hwf cm.fst cm.snd m
        (circuitMask_maskOK t.index popName q cm hcm) h2



def entriesMasksOK (n : Nat) : QEntries → Prop
  | .nil => True
  | .cons _ v rest => (∃ m, v = QVal.mask m ∧ maskOK n m) ∧ entriesMasksOK n rest

def qlistMasksOK (n : Nat) : QList → Prop
  | .qnil => True
  | .qcons q rest => entriesMasksOK n q ∧ qlistMasksOK n rest

theorem valuesAsMasks_masksOK (n : Nat) : ∀ (q : QEntries) (ms : List Mask),
    entriesMasksOK n q → valuesAsMasks q = .ok ms → ∀ m ∈ ms, maskOK n m
  | .nil, ms, _, h => by
      cases h
      intro m hm
      cases hm
  | .cons k v rest, ms, hok, h => by
      simp only [valuesAsMasks] at h
      rcases bind_ok_inv _ _ _ h with ⟨m0, hm0, h2⟩
      rcases bind_ok_inv _ _ _ h2 with ⟨ms', hms', h3⟩
      cases h3
      rcases hok.1 with ⟨mm, rfl, hmm⟩
      rw [show qvalAsMask (QVal.mask mm) = .ok mm from rfl] at hm0
      cases hm0
      intro m hm
      cases hm with
      | head => exact hmm
      | tail _ hm' => exact valuesAsMasks_masksOK n rest ms' hok.2 hms' m hm'

theorem mergeMasks_maskOK (n : Nat) (q : QEntries) (mq : Mask)
    (hok : entriesMasksOK n q) (h : mergeMasks q = .ok mq) : maskOK n mq := by
  unfold mergeMasks at h
  rcases bind_ok_inv _ _ _ h with ⟨ms, hms, h2⟩
  cases h2
  exact logicalAnd_maskOK n ms (valuesAsMasks_masksOK n q ms hok hms)

theorem mergeSubs_masksOK (n : Nat) : ∀ (qs : QList) (ms : List Mask),
    qlistMasksOK n qs → mergeSubs qs = .ok ms → ∀ m ∈ ms, maskOK n m
  | .qnil, ms, _, h => by
      cases h
      intro m hm
      cases hm
  | .qcons q rest, ms, hok, h => by
      simp only [mergeSubs] at h
      rcases bind_ok_inv _ _ _ h with ⟨m0, hm0, h2⟩
      rcases bind_ok_inv _ _ _ h2 with ⟨ms', hms', h3⟩
      cases h3
      intro m hm
      cases hm with
      | head => exact mergeMasks_maskOK n q m0 hok.1 hm0
      | tail _ hm' => exact mergeSubs_masksOK n rest ms' hok.2 hms' m hm'

mutual
theorem resolveCollect_masksOK (t : Table) (popName : String) (hwf : t.wf = true) :
    ∀ (q q' : QEntries), resolveCollect t popName q = .ok q' → entriesMasksOK t.nrows q'
  | .nil, q', h => by
      cases h
      trivial
  | .cons k v rest, q', h => by
      simp only [resolveCollect] at h
      rcases bind_ok_inv _ _ _ h with ⟨v', hv, h2⟩
      rcases bind_ok_inv _ _ _ h2 with ⟨rest', hrest, h3⟩
      cases h3
      exact ⟨resolveKey_masksOK t popName hwf k v v' hv,
        resolveCollect_masksOK t popName hwf rest rest' hrest⟩

theorem resolveKey_masksOK (t : Table) (popName : String) (hwf : t.wf = true) :
    ∀ (k : String) (v v' : QVal), resolveKey t popName k v = .ok v' →
      ∃ m, v' = QVal.mask m ∧ maskOK t.nrows m
  | k, .qlist qs, v', h => by
      unfold resolveKey at h
      split at h
      · dsimp only at h
        rcases bind_ok_inv _ _ _ h with ⟨qs', hqs, h2⟩
        rcases bind_ok_inv _ _ _ h2 with ⟨ms, hms, h3⟩
        cases h3
        exact ⟨_, rfl, logicalOr_maskOK _ ms
          (mergeSubs_masksOK _ qs' ms (resolveSubs_masksOK t popName hwf qs qs' hqs) hms)⟩
      · split at h
        · dsimp only at h
          rcases bind_ok_inv _ _ _ h with ⟨qs', hqs, h2⟩
          rcases bind_ok_inv _ _ _ h2 with ⟨ms, hms, h3⟩
          cases h3
          exact ⟨_, rfl, logicalAnd_maskOK _ ms
            (mergeSubs_masksOK _ qs' ms (resolveSubs_masksOK t popName hwf qs qs' hqs) hms)⟩
        · dsimp only at h
          rcases bind_ok_inv _ _ _ h with ⟨pm, hpm, h2⟩
          cases h2
          exact ⟨pm, rfl, propertiesMask_maskOK t popName _ pm hwf hpm⟩
  | k, .cell c, v', h => by
      unfold resolveKey at h
      split at h
      · cases h
      · split at h
        · cases h
        · dsimp only at h
          rcases bind_ok_inv _ _ _ h with ⟨pm, hpm, h2⟩
          cases h2
          exact ⟨pm, rfl, propertiesMask_maskOK t popName _ pm hwf hpm⟩
  | k, .vlist vs, v', h => by
      unfold resolveKey at h
      split at h
      · cases h
      · split at h
        · cases h
        · dsimp only at h
          rcases bind_ok_inv _ _ _ h with ⟨pm, hpm, h2⟩
          cases h2
          exact ⟨pm, rfl, propertiesMask_maskOK t popName _ pm hwf hpm⟩
  | k, .rgx r, v', h => by
      unfold resolveKey at h
      split at h
      · cases h
      · split at h
        · cases h
        · dsimp only at h
          rcases bind_ok_inv _ _ _ h with ⟨pm, hpm, h2⟩
          cases h2
          exact ⟨pm, rfl, propertiesMask_maskOK t popName _ pm hwf hpm⟩
  | k, .mask m0, v', h => by
      unfold resolveKey at h
      split at h
      · cases h
      · split at h
        · cases h
        · dsimp only at h
          rcases bind_ok_inv _ _ _ h with ⟨pm, hpm, h2⟩
          cases h2
          exact ⟨pm, rfl, propertiesMask_maskOK t popName _ pm hwf hpm⟩
  | k, .qmap mm, v', h => by
      unfold resolveKey at h
      split at h
      · cases h
      · split at h
        · cases h
        · dsimp only at h
          split at h
          · split at h
            · rcases bind_ok_inv _ _ _ h with ⟨pm, hpm, h2⟩
              cases h2
              exact ⟨pm, rfl, propertiesMask_maskOK t popName _ pm hwf hpm⟩
            · cases h
          · rcases bind_ok_inv _ _ _ h with ⟨m', hm', h2⟩
            rcases bind_ok_inv _ _ _ h2 with ⟨pm, hpm, h3⟩
            cases h3
            exact ⟨pm, rfl, propertiesMask_maskOK t popName _ pm hwf hpm⟩

theorem resolveSubs_masksOK (t : Table) (popName : String) (hwf : t.wf = true) :
    ∀ (qs qs' : QList), resolveSubs t popName qs = .ok qs' → qlistMasksOK t.nrows qs'
  | .qnil, qs', h => by
      cases h
      trivial
  | .qcons q rest, qs', h => by
      simp only [resolveSubs] at h
      rcases bind_ok_inv _ _ _ h with ⟨q', hq, h2⟩
      rcases bind_ok_inv _ _ _ h2 with ⟨rest', hrest, h3⟩
      cases h3
      exact ⟨resolveCollect_masksOK t popName hwf q q' hq,
        resolveSubs_masksOK t popName hwf rest rest' hrest⟩
end

/-- **C1.**  For every query tree and every well-formed table of `N` rows, a
successful `resolve_ids` returns a boolean vector of length exactly `N`:
every mask produced during resolution is a scalar or an `N`-vector, and the
final scalar case is broadcast with `np.full(len(data), result)`, so the
caller never receives a bare scalar. -/
theorem resolve_ids_full_length_vector (t : Table) (popName : String) (q : QEntries)
    (v : List Bool) (hwf : t.wf = true) (h : resolveIds t popName q = .ok v) :
    v.length = t.nrows := by
  unfold resolveIds at h
  rcases bind_ok_inv _ _ _ h with ⟨q', hq', h2⟩
  rcases bind_ok_inv _ _ _ h2 with ⟨result, hres, h3⟩
  have hok := resolveCollect_masksOK t popName hwf q q' hq'
  have hm : maskOK t.nrows result := mergeMasks_maskOK t.nrows q' result hok hres
  cases result with
  | bool b =>
      cases h3
      exact List.length_replicate _ _
  | vec w =>
      cases h3
      exact hm

/-- Witness for C1: resolving `{a: 1}` against the three-row table `tEx`
returns a vector of length three. -/
theorem resolve_ids_full_length_vector_witness :
    [true, false, true].length = tEx.nrows :=
  resolve_ids_full_length_vector tEx "pop" (.cons "a" (.cell (.int 1)) .nil)
    [true, false, true] (by decide) rfl

/-! ### Claim C6 : which inputs can raise a `BluepySnapError`

The two raise sites are `_complex_query` (`Unknown query modifier`) and the
mixed-operator check of `traverse_queries_bottom_up`.  The predicates below
describe, in the input tree, the shapes that reach them: a mapping predicate
value with at least one non-`$regex` key (the `_complex_query` site — note
the key need *not* be the only key of the mapping, which is where the
original claim is too narrow), and a mapping mixing `$regex` with plain
keys. -/

/-- Inversion of a failing `Except` bind. -/
theorem bind_error_inv {e a b : Type} (x : Except e a) (f : a → Except e b) (err : e)
    (h : (x >>= f) = .error err) : x = .error err ∨ ∃ y, x = .ok y ∧ f y = .error err := by
  cases x with
  | ok y => exact Or.inr ⟨y, rfl, h⟩
  | error err' =>
      left
      cases h
      rfl

mutual
/-- Somewhere in the tree, a mapping predicate value has a key that is not a
value-operator (`$regex`). -/
def valHasNonRegexMap : QVal → Bool
  | .qmap m => m.keys.any (fun x => decide (x ∉ valueKeys)) || entriesHasNonRegexMap m
  | .qlist qs => qlistHasNonRegexMap qs
  | _ => false

def entriesHasNonRegexMap : QEntries → Bool
  | .nil => false
  | .cons _ v rest => valHasNonRegexMap v || entriesHasNonRegexMap rest

def qlistHasNonRegexMap : QList → Bool
  | .qnil => false
  | .qcons q rest => entriesHasNonRegexMap q || qlistHasNonRegexMap rest
end

mutual
/-- Somewhere in the tree, a mapping value mixes `$regex` with a plain key. -/
def valHasMixedLeaf : QVal → Bool
  | .qmap m =>
      (m.keys.any (fun x => decide (x ∈ valueKeys)) &&
        !(m.keys.all (fun x => decide (x ∈ valueKeys)))) || entriesHasMixedLeaf m
  | .qlist qs => qlistHasMixedLeaf qs
  | _ => false

def entriesHasMixedLeaf : QEntries → Bool
  | .nil => false
  | .cons _ v rest => valHasMixedLeaf v || entriesHasMixedLeaf rest

def qlistHasMixedLeaf : QList → Bool
  | .qnil => false
  | .qcons q rest => entriesHasMixedLeaf q || qlistHasMixedLeaf rest
end

mutual
/-- The claim's situation (a), literally: a **single-key** mapping predicate
value whose key is not `$regex`. -/
def valHasSingleKeyBadOp : QVal → Bool
  | .qmap m =>
      (match m with
        | .cons k _ .nil => decide (k ∉ valueKeys)
        | _ => false) || entriesHasSingleKeyBadOp m
  | .qlist qs => qlistHasSingleKeyBadOp qs
  | _ => false

def entriesHasSingleKeyBadOp : QEntries → Bool
  | .nil => false
  | .cons _ v rest => valHasSingleKeyBadOp v || entriesHasSingleKeyBadOp rest

def qlistHasSingleKeyBadOp : QList → Bool
  | .qnil => false
  | .qcons q rest => entriesHasSingleKeyBadOp q || qlistHasSingleKeyBadOp rest
end

/-- A mapping sitting directly as some value of the node (no recursion):
what `propsLoop` can feed into `_complex_query`. -/
def valTopNonRegexMap : QVal → Bool
  | .qmap m => m.keys.any (fun x => decide (x ∉ valueKeys))
  | _ => false

def entriesTopNonRegexMap : QEntries → Bool
  | .nil => false
  | .cons _ v rest => valTopNonRegexMap v || entriesTopNonRegexMap rest

/-! Small lemmas: everything outside `_complex_query` and the traversal
check only raises non-`BluepySnapError` exceptions. -/

theorem qvalAsMask_error (v : QVal) (e : Err) (h : qvalAsMask v = .error e) :
    e = .typeErr := by
  unfold qvalAsMask at h
  split at h
  · cases h
  · cases h
    rfl

theorem valuesAsMasks_error : ∀ (q : QEntries) (e : Err),
    valuesAsMasks q = .error e → e = .typeErr
  | .nil, e, h => by cases h
  | .cons k v rest, e, h => by
      simp only [valuesAsMasks] at h
      rcases bind_error_inv _ _ _ h with herr | ⟨m, hm, h2⟩
      · exact qvalAsMask_error v e herr
      · rcases bind_error_inv _ _ _ h2 with herr2 | ⟨ms, hms, h3⟩
        · exact valuesAsMasks_error rest e herr2
        · cases h3

theorem mergeMasks_error (q : QEntries) (e : Err) (h : mergeMasks q = .error e) :
    e = .typeErr := by
  unfold mergeMasks at h
  rcases bind_error_inv _ _ _ h with herr | ⟨ms, hms, h2⟩
  · exact valuesAsMasks_error q e herr
  · cases h2

theorem mergeSubs_error : ∀ (qs : QList) (e : Err), mergeSubs qs = .error e → e = .typeErr
  | .qnil, e, h => by cases h
  | .qcons q rest, e, h => by
      simp only [mergeSubs] at h
      rcases bind_error_inv _ _ _ h with herr | ⟨m, hm, h2⟩
      · exact mergeMasks_error q e herr
      · rcases bind_error_inv _ _ _ h2 with herr2 | ⟨ms, hms, h3⟩
        · exact mergeSubs_error rest e herr2
        · cases h3

theorem popMatchesE_error (popName : String) (pv : QVal) (e : Err)
    (h : popMatchesE popName pv = .error e) : e = .typeErr := by
  unfold popMatchesE at h
  split at h <;> (cases h <;> rfl)

theorem positionalMask_error (index : List Int) (ids : Option QVal) (e : Err)
    (h : positionalMask index ids = .error e) : e = .typeErr := by
  unfold positionalMask at h
  split at h <;> (cases h <;> rfl)

theorem strMatchMask_error (col : Column) (r : Regex) (e : Err)
    (h : strMatchMask col r = .error e) : e = .typeErr := by
  unfold strMatchMask at h
  split at h <;> (cases h <;> rfl)

theorem circuitMask_error (index : List Int) (popName : String) (q : QEntries) (e : Err)
    (h : circuitMask index popName q = .error e) : e = .typeErr := by
  unfold circuitMask at h
  dsimp only at h
  split at h
  · rcases bind_error_inv _ _ _ h with herr | ⟨b, hb, h2⟩
    · exact popMatchesE_error popName _ e herr
    · split at h2
      · rcases bind_error_inv _ _ _ h2 with herr2 | ⟨m, hm, h3⟩
        · exact positionalMask_error _ _ e herr2
        · cases h3
      · rcases bind_error_inv _ _ _ h2 with herr2 | ⟨m, hm, h3⟩
        · exact positionalMask_error _ _ e herr2
        · cases h3
  · rcases bind_error_inv _ _ _ h with herr | ⟨m, hm, h2⟩
    · exact positionalMask_error _ _ e herr
    · cases h2

/-- Removing a key can only lose witnesses of `entriesTopNonRegexMap`. -/
theorem entriesTop_popKey (k : String) : ∀ (q : QEntries),
    entriesTopNonRegexMap (q.popKey k).snd = true → entriesTopNonRegexMap q = true
  | .nil, h => h
  | .cons k' v rest, h => by
      by_cases hk : k' = k
      · rw [show ((QEntries.cons k' v rest).popKey k).snd = rest from by
          simp [QEntries.popKey, hk]] at h
        simp [entriesTopNonRegexMap, h]
      · rw [show ((QEntries.cons k' v rest).popKey k).snd =
          .cons k' v (rest.popKey k).snd from by simp [QEntries.popKey, hk]] at h
        simp only [entriesTopNonRegexMap, Bool.or_eq_true] at h ⊢
        rcases h with h | h
        · exact Or.inl h
        · exact Or.inr (by
            have := entriesTop_popKey k rest
            simp only [Bool.or_eq_true] at this
            exact this h)

/-- What survives `_circuit_mask` is part of the original node. -/
theorem circuitMask_ok_entries (index : List Int) (popName : String) (q : QEntries)
    (cm : QEntries × Mask) (h : circuitMask index popName q = .ok cm)
    (htop : entriesTopNonRegexMap cm.fst = true) : entriesTopNonRegexMap q = true := by
  unfold circuitMask at h
  dsimp only at h
  split at h
  · rcases bind_ok_inv _ _ _ h with ⟨b, hb, h2⟩
    split at h2
    · rcases bind_ok_inv _ _ _ h2 with ⟨m, hm, h3⟩
      cases h3
      exact entriesTop_popKey POPULATION_KEY q
        (entriesTop_popKey EDGE_ID_KEY _ (entriesTop_popKey NODE_ID_KEY _ htop))
    · rcases bind_ok_inv _ _ _ h2 with ⟨m, hm, h3⟩
      cases h3
      exact entriesTop_popKey POPULATION_KEY q htop
  · rcases bind_ok_inv _ _ _ h with ⟨m, hm, h2⟩
    cases h2
    exact entriesTop_popKey POPULATION_KEY q
      (entriesTop_popKey EDGE_ID_KEY _ (entriesTop_popKey NODE_ID_KEY _ htop))

/-- The traversal rewrites values but never keys. -/
theorem resolveCollect_keys (t : Table) (popName : String) : ∀ (q q' : QEntries),
    resolveCollect t popName q = .ok q' → q'.keys = q.keys
  | .nil, q', h => by
      cases h
      rfl
  | .cons k v rest, q', h => by
      simp only [resolveCollect] at h
      rcases bind_ok_inv _ _ _ h with ⟨v', hv, h2⟩
      rcases bind_ok_inv _ _ _ h2 with ⟨rest', hrest, h3⟩
      cases h3
      simp [QEntries.keys, resolveCollect_keys t popName rest rest' hrest]

/-- `_complex_query` raises a `BluepySnapError` only when its mapping holds
a key other than `$regex` (and then the error is `Unknown query modifier`). -/
theorem complexQuery_queryError (col : Column) : ∀ (m : QEntries) (acc : Mask) (e : Err),
    complexQuery col m acc = .error e → e.isQueryError = true →
    m.keys.any (fun x => decide (x ∉ valueKeys)) = true
  | .nil, acc, e, h, _ => by cases h
  | .cons k v rest, acc, e, h, hq => by
      simp only [complexQuery] at h
      split at h
      · split at h
        · rcases bind_error_inv _ _ _ h with herr | ⟨sm, hsm, h2⟩
          · rw [strMatchMask_error col _ e herr] at hq
            simp [Err.isQueryError] at hq
          · have := complexQuery_queryError col rest _ e h2 hq
            simp only [QEntries.keys, List.any_cons, Bool.or_eq_true]
            exact Or.inr this
        · cases h
          simp [Err.isQueryError] at hq
      · cases h
        rename_i hk
        simp [QEntries.keys, valueKeys, hk]

/-- The per-property dispatch raises a `BluepySnapError` only out of a
mapping value with a non-`$regex` key. -/
theorem propMask_queryError (col : Column) (v : QVal) (e : Err)
    (h : propMask col v = .error e) (hq : e.isQueryError = true) :
    valTopNonRegexMap v = true := by
  unfold propMask at h
  split at h
  · split at h
    · split at h
      · cases h
      · cases h
        simp [Err.isQueryError] at hq
    · cases h
      simp [Err.isQueryError] at hq
  · split at h
    · rename_i m
      have := complexQuery_queryError col m (.bool true) e h hq
      simpa [valTopNonRegexMap] using this
    · cases h
    · cases h
      simp [Err.isQueryError] at hq
    · cases h
    · cases h
    · cases h

theorem propsLoop_queryError (t : Table) : ∀ (q : QEntries) (acc : Mask) (e : Err),
    propsLoop t q acc = .error e → e.isQueryError = true →
    entriesTopNonRegexMap q = true
  | .nil, acc, e, h, _ => by cases h
  | .cons k v rest, acc, e, h, hq => by
      simp only [propsLoop] at h
      split at h
      · cases h
        simp [Err.isQueryError] at hq
      · rcases bind_error_inv _ _ _ h with herr | ⟨pm, hpm, h2⟩
        · have := propMask_queryError _ v e herr hq
          simp [entriesTopNonRegexMap, this]
        · have := propsLoop_queryError t rest _ e h2 hq
          simp [entriesTopNonRegexMap, this]

/-- `_properties_mask` raises a `BluepySnapError` only when one of the
node's values is a mapping with a non-`$regex` key. -/
theorem propertiesMask_queryError (t : Table) (popName : String) (q : QEntries) (e : Err)
    (h : propertiesMask t popName q = .error e) (hq : e.isQueryError = true) :
    entriesTopNonRegexMap q = true := by
  unfold propertiesMask at h
  split at h
  · cases h
  · rcases bind_error_inv _ _ _ h with herr | ⟨cm, hcm, h2⟩
    · rw [circuitMask_error _ _ _ _ herr] at hq
      simp [Err.isQueryError] at hq
    · split at h2
      · cases h2
      · exact circuitMask_ok_entries _ _ q cm hcm (propsLoop_queryError t cm.fst cm.snd e h2 hq)

mutual
theorem resolveCollect_queryError (t : Table) (popName : String) : ∀ (q : QEntries) (e : Err),
    resolveCollect t popName q = .error e → e.isQueryError = true →
    entriesHasNonRegexMap q = true ∨ entriesHasMixedLeaf q = true
  | .nil, e, h, _ => by cases h
  | .cons k v rest, e, h, hq => by
      simp only [resolveCollect] at h
      rcases bind_error_inv _ _ _ h with herr | ⟨v', hv, h2⟩
      · rcases resolveKey_queryError t popName k v e herr hq with h1 | h1
        · exact Or.inl (by simp [entriesHasNonRegexMap, h1])
        · exact Or.inr (by simp [entriesHasMixedLeaf, h1])
      · rcases bind_error_inv _ _ _ h2 with herr2 | ⟨rest', hrest, h3⟩
        · rcases resolveCollect_queryError t popName rest e herr2 hq with h1 | h1
          · exact Or.inl (by simp [entriesHasNonRegexMap, h1])
          · exact Or.inr (by simp [entriesHasMixedLeaf, h1])
        · cases h3

theorem resolveKey_queryError (t : Table) (popName : String) :
    ∀ (k : String) (v : QVal) (e : Err),
    resolveKey t popName k v = .error e → e.isQueryError = true →
    valHasNonRegexMap v = true ∨ valHasMixedLeaf v = true
  | k, .qlist qs, e, h, hq => by
      unfold resolveKey at h
      split at h
      · dsimp only at h
        rcases bind_error_inv _ _ _ h with herr | ⟨qs', hqs, h2⟩
        · rcases resolveSubs_queryError t popName qs e herr hq with h1 | h1
          · exact Or.inl (by simpa [valHasNonRegexMap] using h1)
          · exact Or.inr (by simpa [valHasMixedLeaf] using h1)
        · rcases bind_error_inv _ _ _ h2 with herr2 | ⟨ms, hms, h3⟩
          · rw [mergeSubs_error qs' e herr2] at hq
            simp [Err.isQueryError] at hq
          · cases h3
      · split at h
        · dsimp only at h
          rcases bind_error_inv _ _ _ h with herr | ⟨qs', hqs, h2⟩
          · rcases resolveSubs_queryError t popName qs e herr hq with h1 | h1
            · exact Or.inl (by simpa [valHasNonRegexMap] using h1)
            · exact Or.inr (by simpa [valHasMixedLeaf] using h1)
          · rcases bind_error_inv _ _ _ h2 with herr2 | ⟨ms, hms, h3⟩
            · rw [mergeSubs_error qs' e herr2] at hq
              simp [Err.isQueryError] at hq
            · cases h3
        · dsimp only at h
          rcases bind_error_inv _ _ _ h with herr | ⟨pm, hpm, h2⟩
          · have := propertiesMask_queryError t popName _ e herr hq
            simp [entriesTopNonRegexMap, valTopNonRegexMap] at this
          · cases h2
  | k, .cell c, e, h, hq => by
      unfold resolveKey at h
      split at h
      · cases h
        simp [Err.isQueryError] at hq
      · split at h
        · cases h
          simp [Err.isQueryError] at hq
        · dsimp only at h
          rcases bind_error_inv _ _ _ h with herr | ⟨pm, hpm, h2⟩
          · have := propertiesMask_queryError t popName _ e herr hq
            simp [entriesTopNonRegexMap, valTopNonRegexMap] at this
          · cases h2
  | k, .vlist vs, e, h, hq => by
      unfold resolveKey at h
      split at h
      · cases h
        simp [Err.isQueryError] at hq
      · split at h
        · cases h
          simp [Err.isQueryError] at hq
        · dsimp only at h
          rcases bind_error_inv _ _ _ h with herr | ⟨pm, hpm, h2⟩
          · have := propertiesMask_queryError t popName _ e herr hq
            simp [entriesTopNonRegexMap, valTopNonRegexMap] at this
          · cases h2
  | k, .rgx r, e, h, hq => by
      unfold resolveKey at h
      split at h
      · cases h
        simp [Err.isQueryError] at hq
      · split at h
        · cases h
          simp [Err.isQueryError] at hq
        · dsimp only at h
          rcases bind_error_inv _ _ _ h with herr | ⟨pm, hpm, h2⟩
          · have := propertiesMask_queryError t popName _ e herr hq
            simp [entriesTopNonRegexMap, valTopNonRegexMap] at this
          · cases h2
  | k, .mask m0, e, h, hq => by
      unfold resolveKey at h
      split at h
      · cases h
        simp [Err.isQueryError] at hq
      · split at h
        · cases h
          simp [Err.isQueryError] at hq
        · dsimp only at h
          rcases bind_error_inv _ _ _ h with herr | ⟨pm, hpm, h2⟩
          · have := propertiesMask_queryError t popName _ e herr hq
            simp [entriesTopNonRegexMap, valTopNonRegexMap] at this
          · cases h2
  | k, .qmap m, e, h, hq => by
      unfold resolveKey at h
      split at h
      · cases h
        simp [Err.isQueryError] at hq
      · split at h
        · cases h
          simp [Err.isQueryError] at hq
        · dsimp only at h
          split at h
          · split at h
            · rcases bind_error_inv _ _ _ h with herr | ⟨pm, hpm, h2⟩
              · have := propertiesMask_queryError t popName _ e herr hq
                left
                simp only [entriesTopNonRegexMap, valTopNonRegexMap, Bool.or_false] at this
                simp only [valHasNonRegexMap, Bool.or_eq_true]
                exact Or.inl this
              · cases h2
            · cases h
              right
              rename_i hany hnall
              have hall : m.keys.all (fun x => decide (x ∈ valueKeys)) = false := by
                revert hnall
                cases m.keys.all (fun x => decide (x ∈ valueKeys)) with
                | false => intro _; rfl
                | true => intro hnall; exact absurd rfl hnall
              simp [valHasMixedLeaf, hany, hall]
          · rcases bind_error_inv _ _ _ h with herr | ⟨m', hm', h2⟩
            · rcases resolveCollect_queryError t popName m e herr hq with h1 | h1
              · exact Or.inl (by simp [valHasNonRegexMap, h1])
              · exact Or.inr (by simp [valHasMixedLeaf, h1])
            · rcases bind_error_inv _ _ _ h2 with herr2 | ⟨pm, hpm, h3⟩
              · have := propertiesMask_queryError t popName _ e herr2 hq
                left
                simp only [entriesTopNonRegexMap, valTopNonRegexMap, Bool.or_false] at this
                rw [resolveCollect_keys t popName m m' hm'] at this
                simp only [valHasNonRegexMap, Bool.or_eq_true]
                exact Or.inl this
              · cases h3

theorem resolveSubs_queryError (t : Table) (popName : String) : ∀ (qs : QList) (e : Err),
    resolveSubs t popName qs = .error e → e.isQueryError = true →
    qlistHasNonRegexMap qs = true ∨ qlistHasMixedLeaf qs = true
  | .qnil, e, h, _ => by cases h
  | .qcons q rest, e, h, hq => by
      simp only [resolveSubs] at h
      rcases bind_error_inv _ _ _ h with herr | ⟨q', hq', h2⟩
      · rcases resolveCollect_queryError t popName q e herr hq with h1 | h1
        · exact Or.inl (by simp [qlistHasNonRegexMap, h1])
        · exact Or.inr (by simp [qlistHasMixedLeaf, h1])
      · rcases bind_error_inv _ _ _ h2 with herr2 | ⟨rest', hrest, h3⟩
        · rcases resolveSubs_queryError t popName rest e herr2 hq with h1 | h1
          · exact Or.inl (by simp [qlistHasNonRegexMap, h1])
          · exact Or.inr (by simp [qlistHasMixedLeaf, h1])
        · cases h3
end

/-- **C6 (amended).**  `resolve_ids` propagates a `BluepySnapError` (the
`QueryError` of the spec) only out of the two raise sites, whose input
shapes are: a mapping predicate value containing at least one key that is
not `$regex` (reported as `Unknown query modifier` by `_complex_query` —
the mapping need not be single-key), and a leaf mapping mixing `$regex`
with plain keys (`Value operators can't be used with plain values`).  Every
other failure is a non-`BluepySnapError` runtime exception. -/
theorem resolve_ids_query_error_source (t : Table) (popName : String) (q : QEntries)
    (e : Err) (h : resolveIds t popName q = .error e) (hq : e.isQueryError = true) :
    entriesHasNonRegexMap q = true ∨ entriesHasMixedLeaf q = true := by
  unfold resolveIds at h
  rcases bind_error_inv _ _ _ h with herr | ⟨q', hq', h2⟩
  · exact resolveCollect_queryError t popName q e herr hq
  · rcases bind_error_inv _ _ _ h2 with herr2 | ⟨result, hres, h3⟩
    · rw [mergeMasks_error _ _ herr2] at hq
      simp [Err.isQueryError] at hq
    · cases result <;> cases h3

/-- Witness for C6 (amended): `{a: {$gt: 0}}` raises the `Unknown query
modifier` `BluepySnapError`, and indeed contains a mapping value with a
non-`$regex` key. -/
theorem resolve_ids_query_error_source_witness :
    entriesHasNonRegexMap
        (.cons "a" (.qmap (.cons "$gt" (.cell (.int 0)) .nil)) .nil) = true ∨
    entriesHasMixedLeaf
        (.cons "a" (.qmap (.cons "$gt" (.cell (.int 0)) .nil)) .nil) = true :=
  resolve_ids_query_error_source tEx "pop"
    (.cons "a" (.qmap (.cons "$gt" (.cell (.int 0)) .nil)) .nil)
    (.unknownModifier "$gt") rfl rfl

/-- **C6 (counterexample).**  The claim's enumeration is too narrow: the
query `{a: {u: 1, w: 2}}` raises a `BluepySnapError` (`Unknown query
modifier: 'u'`) although its mapping value has **two** plain keys — it is
neither a single-key value-operator mapping nor a leaf mixing `$regex` with
plain keys, so it falls outside both claimed situations. -/
theorem query_error_outside_claimed_situations :
    resolveIds tEx "pop"
        (.cons "a" (.qmap (.cons "u" (.cell (.int 1))
          (.cons "w" (.cell (.int 2)) .nil))) .nil) =
      .error (.unknownModifier "u") ∧
    (Err.unknownModifier "u").isQueryError = true ∧
    entriesHasSingleKeyBadOp
        (.cons "a" (.qmap (.cons "u" (.cell (.int 1))
          (.cons "w" (.cell (.int 2)) .nil))) .nil) = false ∧
    entriesHasMixedLeaf
        (.cons "a" (.qmap (.cons "u" (.cell (.int 1))
          (.cons "w" (.cell (.int 2)) .nil))) .nil) = false :=
  ⟨rfl, rfl, rfl, rfl⟩

end Snap
